import Mathlib

/-!
# Verification of the sysmon sampler/registry/ring-buffer engine

Shallow embedding of the sysmon telemetry component (ESP32 task monitor).
The read surface (`sysmon_json.c` / `sysmon_http.c`), the stack-size
registry (`sysmon_stack.c`) and the utilities (`sysmon_utils.c`) are
translated from the C sources.  The sampler core (`sysmon.c`) is not part
of the source tree; its per-tick reconciliation step and the usage-percent
formulas are modelled from the specification (sections 4.1 and 4.2) and
are marked as such in their doc comments.

Conventions of the embedding:
* C pointers that may be NULL become `Option`; `none` is NULL.
* Machine integers (`uint32_t`, `int`) become `Nat`; the wraparound
  comparison `current < prev` is made explicit where the code/spec
  handles it.
* `float` values carried by the ring buffers become `Rat` (the indexing
  claims are independent of the value arithmetic, so ring buffers are
  additionally kept generic in the element type).
* A C array of length `N` becomes a `List` whose length-`N` invariant is
  carried as a hypothesis.
-/

/-- Display-name translation from `sysmon_utils.c`:
`_get_task_display_name` renames the task name "main" to "app_main" and
returns every other name (including NULL) unchanged.  NULL is `none`. -/
def _get_task_display_name (task_name : Option String) : Option String :=
  match task_name with
  | some s => if s = "main" then some "app_main" else some s
  | none => none

/-- One record of the external stack-size registry (`sysmon_stack.c`):
a task handle (modelled as `Nat`, `0` playing the role of the NULL
handle stored by `calloc`), the registered stack depth in bytes, and the
validity flag. -/
structure TaskStackRecord where
  handle : Nat
  depth_bytes : Nat
  is_valid : Bool
  deriving Repr, DecidableEq

/-- The module state of `sysmon_stack.c` together with the two fields of
the shared `SysMonState` that it reads: `records` models the
`s_stack_records` array (the empty list models the NULL array of
capacity 0), `monitor_task_handle` and `task_capacity` model the fields
of `self` consulted by `sysmon_stack_register`. -/
structure StackRegState where
  records : List TaskStackRecord
  monitor_task_handle : Option Nat
  task_capacity : Nat
  deriving Repr, DecidableEq

/-- The "update existing record" loop of `sysmon_stack_register`: find
the first valid record whose handle matches and overwrite its
`depth_bytes`; `none` when no valid record matches. -/
def updateValidMatch (h size : Nat) : List TaskStackRecord → Option (List TaskStackRecord)
  | [] => none
  | r :: rest =>
    if r.is_valid && r.handle == h then
      some ({ r with depth_bytes := size } :: rest)
    else
      (updateValidMatch h size rest).map (fun l => r :: l)

/-- The "create new record" loop of `sysmon_stack_register`: fill the
first invalid slot with a fresh valid record (and stop); if every slot
is valid the list is returned unchanged (the C loop falls through). -/
def fillFirstInvalid (h size : Nat) : List TaskStackRecord → List TaskStackRecord
  | [] => []
  | r :: rest =>
    if !r.is_valid then
      { handle := h, depth_bytes := size, is_valid := true } :: rest
    else
      r :: fillFirstInvalid h size rest

/-- The capacity-growing step of `sysmon_stack_register`: when the
array is smaller than the required capacity it is reallocated with
`calloc` (the new tail is zero-filled, hence invalid) and the old
records are copied over. -/
def growRecords (recs : List TaskStackRecord) (required : Nat) : List TaskStackRecord :=
  if recs.length < required then
    recs ++ List.replicate (required - recs.length)
      { handle := 0, depth_bytes := 0, is_valid := false }
  else recs

/-- The two record-table scans of `sysmon_stack_register`: update an
existing valid record in place when one matches, otherwise fill the
first invalid slot. -/
def registerCore (recs : List TaskStackRecord) (h size : Nat) : List TaskStackRecord :=
  match updateValidMatch h size recs with
  | some recs' => recs'
  | none => fillFirstInvalid h size recs

/-- The required record capacity computed by `sysmon_stack_register`:
`self.task_capacity` when set, a default of 32 otherwise. -/
def stackRequiredCapacity (st : StackRegState) : Nat :=
  if st.task_capacity > 0 then st.task_capacity else 32

/-- `sysmon_stack_register` from `sysmon_stack.c`.  `task_handle = none`
is a NULL handle; `alloc_ok` models whether the `calloc` growing the
record array succeeds (when no growth is needed no allocation happens
and `alloc_ok` is irrelevant).  Steps, in source order: no-op when
sysmon is not initialized, no-op on NULL handle or zero size, grow the
array to `task_capacity` (or 32) records, update an existing valid
record in place, otherwise fill the first invalid slot. -/
def sysmon_stack_register (st : StackRegState) (task_handle : Option Nat)
    (stack_size_bytes : Nat) (alloc_ok : Bool) : StackRegState :=
  if st.monitor_task_handle = none then st
  else
    match task_handle with
    | none => st
    | some h =>
      if stack_size_bytes = 0 then st
      else
        if st.records.length < stackRequiredCapacity st ∧ alloc_ok = false then st
        else
          { st with records :=
              registerCore (growRecords st.records (stackRequiredCapacity st)) h stack_size_bytes }

/-- `sysmon_stack_get_size` from `sysmon_stack.c`.  Arguments: the
registry state, the task handle (`none` is NULL) and whether the output
pointer is NULL.  Result: the (unchanged) registry state, the boolean
return value, and the value written through the output pointer (`none`
when nothing was written). -/
def sysmon_stack_get_size (st : StackRegState) (task_handle : Option Nat)
    (out_is_null : Bool) : StackRegState × Bool × Option Nat :=
  match task_handle with
  | none => (st, false, none)
  | some h =>
    if out_is_null then (st, false, none)
    else
      match st.records.find? (fun r => r.is_valid && r.handle == h) with
      | some r => (st, true, some r.depth_bytes)
      | none => (st, false, some 0)

/-- The handles of the valid records, in table order. -/
def validHandles (recs : List TaskStackRecord) : List Nat :=
  (recs.filter (fun r => r.is_valid)).map (fun r => r.handle)

/-- Whether some valid record carries handle `h`. -/
def hasValidRecord (recs : List TaskStackRecord) (h : Nat) : Bool :=
  recs.any (fun r => r.is_valid && r.handle == h)

/-- One `sysmon_stack_register` call: handle, size, allocation outcome. -/
structure RegCall where
  handle : Option Nat
  size : Nat
  alloc_ok : Bool

/-- Apply a sequence of `sysmon_stack_register` calls. -/
def applyRegCalls (st : StackRegState) (calls : List RegCall) : StackRegState :=
  calls.foldl (fun s c => sysmon_stack_register s c.handle c.size c.alloc_ok) st

/-! ## Lemmas about the stack-size registry -/

theorem updateValidMatch_eq_none {h size : Nat} {recs : List TaskStackRecord}
    (hnone : updateValidMatch h size recs = none) :
    hasValidRecord recs h = false := by
  induction recs with
  | nil => rfl
  | cons r rest ih =>
    unfold updateValidMatch at hnone
    by_cases hr : (r.is_valid && r.handle == h) = true
    · simp [hr] at hnone
    · simp [hr] at hnone
      have hrest := ih hnone
      simp only [hasValidRecord, List.any_cons] at hrest ⊢
      rw [hrest, Bool.or_false]
      exact Bool.eq_false_iff.mpr hr

theorem validHandles_updateValidMatch {h size : Nat}
    {recs recs' : List TaskStackRecord}
    (hsome : updateValidMatch h size recs = some recs') :
    validHandles recs' = validHandles recs := by
  induction recs generalizing recs' with
  | nil => simp [updateValidMatch] at hsome
  | cons r rest ih =>
    unfold updateValidMatch at hsome
    by_cases hr : (r.is_valid && r.handle == h) = true
    · simp [hr] at hsome
      subst hsome
      have hv : r.is_valid = true := (Bool.and_eq_true_iff.mp hr).1
      simp [validHandles, List.filter_cons, hv]
    · simp [hr] at hsome
      obtain ⟨l, hl, rfl⟩ := hsome
      by_cases hv : r.is_valid = true
      · simp [validHandles, List.filter_cons, hv] at ih ⊢
        exact ih hl
      · simp only [Bool.not_eq_true] at hv
        simp [validHandles, List.filter_cons, hv] at ih ⊢
        exact ih hl

theorem validHandles_fillFirstInvalid_subset {h size : Nat}
    {recs : List TaskStackRecord} :
    ∀ x ∈ validHandles (fillFirstInvalid h size recs), x = h ∨ x ∈ validHandles recs := by
  induction recs with
  | nil => simp [fillFirstInvalid, validHandles]
  | cons r rest ih =>
    intro x hx
    unfold fillFirstInvalid at hx
    by_cases hv : r.is_valid = true
    · simp [hv, validHandles, List.filter_cons] at hx ⊢
      rcases hx with hx | hx
      · exact Or.inr (Or.inl hx)
      · rcases ih x (by simpa [validHandles] using hx) with h1 | h1
        · exact Or.inl h1
        · exact Or.inr (Or.inr (by simpa [validHandles] using h1))
    · simp only [Bool.not_eq_true] at hv
      simp [hv, validHandles, List.filter_cons] at hx ⊢
      rcases hx with hx | hx
      · exact Or.inl hx
      · exact Or.inr hx

theorem validHandles_fillFirstInvalid_nodup {h size : Nat}
    {recs : List TaskStackRecord}
    (hnd : (validHandles recs).Nodup)
    (habs : h ∉ validHandles recs) :
    (validHandles (fillFirstInvalid h size recs)).Nodup := by
  induction recs with
  | nil => simp [fillFirstInvalid, validHandles]
  | cons r rest ih =>
    unfold fillFirstInvalid
    by_cases hv : r.is_valid = true
    · rw [if_neg (by simp [hv])]
      have hcons : validHandles (r :: rest) = r.handle :: validHandles rest := by
        simp [validHandles, List.filter_cons, hv]
      rw [hcons] at hnd habs
      have hfill : validHandles (r :: fillFirstInvalid h size rest)
          = r.handle :: validHandles (fillFirstInvalid h size rest) := by
        simp [validHandles, List.filter_cons, hv]
      rw [hfill, List.nodup_cons]
      rw [List.nodup_cons] at hnd
      simp only [List.mem_cons, not_or] at habs
      refine ⟨?_, ih hnd.2 habs.2⟩
      intro hmem
      rcases validHandles_fillFirstInvalid_subset _ hmem with h1 | h1
      · exact habs.1 h1.symm
      · exact hnd.1 h1
    · simp only [Bool.not_eq_true] at hv
      rw [if_pos (by simp [hv])]
      have hcons : validHandles (r :: rest) = validHandles rest := by
        simp [validHandles, List.filter_cons, hv]
      rw [hcons] at hnd habs
      have hnew : validHandles
            ({ handle := h, depth_bytes := size, is_valid := true } :: rest)
          = h :: validHandles rest := by
        simp [validHandles, List.filter_cons]
      rw [hnew, List.nodup_cons]
      exact ⟨habs, hnd⟩

theorem validHandles_append_invalid {recs : List TaskStackRecord} {k : Nat} :
    validHandles (recs ++ List.replicate k { handle := 0, depth_bytes := 0, is_valid := false }) =
      validHandles recs := by
  simp [validHandles, List.filter_append, List.filter_replicate]

theorem hasValidRecord_iff_mem_validHandles {recs : List TaskStackRecord} {h : Nat} :
    hasValidRecord recs h = true ↔ h ∈ validHandles recs := by
  simp only [hasValidRecord, validHandles, List.any_eq_true, List.mem_map, List.mem_filter,
    Bool.and_eq_true, beq_iff_eq]
  constructor
  · rintro ⟨r, hr, hv, rfl⟩
    exact ⟨r, ⟨hr, hv⟩, rfl⟩
  · rintro ⟨r, ⟨hr, hv⟩, rfl⟩
    exact ⟨r, hr, hv, rfl⟩

theorem validHandles_growRecords {recs : List TaskStackRecord} {required : Nat} :
    validHandles (growRecords recs required) = validHandles recs := by
  unfold growRecords
  split
  · exact validHandles_append_invalid
  · rfl

theorem find?_updateValidMatch {h size : Nat} {recs recs' : List TaskStackRecord}
    (hsome : updateValidMatch h size recs = some recs') :
    ∃ r', recs'.find? (fun r => r.is_valid && r.handle == h) = some r'
      ∧ r'.depth_bytes = size := by
  induction recs generalizing recs' with
  | nil => simp [updateValidMatch] at hsome
  | cons r rest ih =>
    unfold updateValidMatch at hsome
    by_cases hr : (r.is_valid && r.handle == h) = true
    · simp [hr] at hsome
      subst hsome
      exact ⟨_, List.find?_cons_of_pos _ (by simpa using hr), rfl⟩
    · simp [hr] at hsome
      obtain ⟨l, hl, rfl⟩ := hsome
      obtain ⟨r', hfind, hdepth⟩ := ih hl
      exact ⟨r', by rw [List.find?_cons_of_neg _ (by simpa using hr)]; exact hfind, hdepth⟩

theorem updateValidMatch_isSome_of_hasValid {h size : Nat} {recs : List TaskStackRecord}
    (hval : hasValidRecord recs h = true) :
    ∃ recs', updateValidMatch h size recs = some recs' := by
  cases hu : updateValidMatch h size recs with
  | none => rw [updateValidMatch_eq_none hu] at hval; cases hval
  | some recs' => exact ⟨recs', rfl⟩

theorem registerCore_nodup {recs : List TaskStackRecord} (h size : Nat)
    (hnd : (validHandles recs).Nodup) :
    (validHandles (registerCore recs h size)).Nodup := by
  unfold registerCore
  cases hu : updateValidMatch h size recs with
  | some recs' => rw [validHandles_updateValidMatch hu]; exact hnd
  | none =>
    apply validHandles_fillFirstInvalid_nodup hnd
    intro hmem
    have := hasValidRecord_iff_mem_validHandles.mpr hmem
    rw [updateValidMatch_eq_none hu] at this
    cases this

theorem sysmon_stack_register_nodup (st : StackRegState) (task_handle : Option Nat)
    (size : Nat) (ok : Bool) (hnd : (validHandles st.records).Nodup) :
    (validHandles (sysmon_stack_register st task_handle size ok).records).Nodup := by
  unfold sysmon_stack_register
  split
  · exact hnd
  · split
    · exact hnd
    · split
      · exact hnd
      · split
        · exact hnd
        · exact registerCore_nodup _ _ (by rw [validHandles_growRecords]; exact hnd)

theorem applyRegCalls_nodup (st : StackRegState) (calls : List RegCall)
    (hnd : (validHandles st.records).Nodup) :
    (validHandles (applyRegCalls st calls).records).Nodup := by
  induction calls generalizing st with
  | nil => exact hnd
  | cons c rest ih =>
    exact ih _ (sysmon_stack_register_nodup st c.handle c.size c.alloc_ok hnd)

theorem find?_eq_none_iff_hasValid_false {recs : List TaskStackRecord} {h : Nat} :
    recs.find? (fun r => r.is_valid && r.handle == h) = none
      ↔ hasValidRecord recs h = false := by
  rw [List.find?_eq_none, hasValidRecord, List.any_eq_false]

theorem sysmon_stack_register_eq_of_run (st : StackRegState) (h size : Nat) (ok : Bool)
    (hmon : ¬st.monitor_task_handle = none) (hsz : ¬size = 0)
    (hok : ¬(st.records.length < stackRequiredCapacity st ∧ ok = false)) :
    sysmon_stack_register st (some h) size ok =
      { st with records :=
          registerCore (growRecords st.records (stackRequiredCapacity st)) h size } := by
  unfold sysmon_stack_register
  simp only [if_neg hmon, if_neg hsz, if_neg hok]

/-! ## Claim theorems: stack registry and display names -/

/-- C8: after any sequence of `sysmon_stack_register` calls at most one
valid record exists per task handle (the valid handles stay pairwise
distinct), and registering a handle that already has a valid record
updates that record in place: the set of valid handles is unchanged (no
second record appears) and a subsequent `sysmon_stack_get_size` returns
the most recently registered size. -/
theorem stack_register_at_most_one_valid :
    (∀ st : StackRegState, ∀ calls : List RegCall,
        (validHandles st.records).Nodup →
        (validHandles (applyRegCalls st calls).records).Nodup)
    ∧ ∀ st : StackRegState, ∀ h size : Nat,
        (validHandles st.records).Nodup →
        hasValidRecord st.records h = true →
        st.monitor_task_handle ≠ none → size ≠ 0 →
        validHandles (sysmon_stack_register st (some h) size true).records
            = validHandles st.records
        ∧ sysmon_stack_get_size (sysmon_stack_register st (some h) size true) (some h) false
            = (sysmon_stack_register st (some h) size true, true, some size) := by
  constructor
  · exact fun st calls hnd => applyRegCalls_nodup st calls hnd
  · intro st h size _ hval hmon hsz
    have hok : ¬(st.records.length < stackRequiredCapacity st ∧ true = false) := by
      simp
    have hrun := sysmon_stack_register_eq_of_run st h size true hmon hsz hok
    have hgrown : hasValidRecord (growRecords st.records (stackRequiredCapacity st)) h = true := by
      rw [hasValidRecord_iff_mem_validHandles, validHandles_growRecords]
      exact hasValidRecord_iff_mem_validHandles.mp hval
    obtain ⟨recs', hu⟩ := @updateValidMatch_isSome_of_hasValid h size
      (growRecords st.records (stackRequiredCapacity st)) hgrown
    have hcore : registerCore (growRecords st.records (stackRequiredCapacity st)) h size
        = recs' := by
      unfold registerCore
      rw [hu]
    constructor
    · rw [hrun, hcore]
      rw [show ({ st with records := recs' } : StackRegState).records = recs' from rfl]
      rw [validHandles_updateValidMatch hu, validHandles_growRecords]
    · obtain ⟨r', hfind, hdepth⟩ := find?_updateValidMatch hu
      rw [hrun, hcore]
      simp [sysmon_stack_get_size, hfind, hdepth]

/-- Witness for C8 at a concrete registry: registering handle 5 twice
leaves a single valid record and the second size wins. -/
theorem stack_register_at_most_one_valid_witness :
    (validHandles (applyRegCalls
        { records := [], monitor_task_handle := some 1, task_capacity := 2 }
        [{ handle := some 5, size := 100, alloc_ok := true }]).records).Nodup
    ∧ validHandles (sysmon_stack_register
        { records := [{ handle := 5, depth_bytes := 100, is_valid := true },
                      { handle := 0, depth_bytes := 0, is_valid := false }],
          monitor_task_handle := some 1, task_capacity := 2 }
        (some 5) 200 true).records
      = validHandles
          [{ handle := 5, depth_bytes := 100, is_valid := true },
           { handle := 0, depth_bytes := 0, is_valid := false }]
    ∧ sysmon_stack_get_size (sysmon_stack_register
        { records := [{ handle := 5, depth_bytes := 100, is_valid := true },
                      { handle := 0, depth_bytes := 0, is_valid := false }],
          monitor_task_handle := some 1, task_capacity := 2 }
        (some 5) 200 true) (some 5) false
      = (sysmon_stack_register
          { records := [{ handle := 5, depth_bytes := 100, is_valid := true },
                        { handle := 0, depth_bytes := 0, is_valid := false }],
            monitor_task_handle := some 1, task_capacity := 2 }
          (some 5) 200 true, true, some 200) := by
  refine ⟨stack_register_at_most_one_valid.1 _ _ (by decide), ?_, ?_⟩
  · exact (stack_register_at_most_one_valid.2 _ 5 200 (by decide) (by decide)
      (by decide) (by decide)).1
  · exact (stack_register_at_most_one_valid.2 _ 5 200 (by decide) (by decide)
      (by decide) (by decide)).2

/-- C9: `sysmon_stack_get_size` never modifies the record table and is
total: a NULL handle or a NULL output pointer yields `false` with no
write; with both arguments non-NULL it writes 0 and returns `false` when
no valid record matches, and returns `true` (writing the matching
record's registered size) exactly when a valid record with that handle
exists. -/
theorem stack_get_size_total :
    ∀ st : StackRegState, ∀ th : Option Nat, ∀ out_null : Bool,
      (sysmon_stack_get_size st th out_null).1 = st
      ∧ (th = none ∨ out_null = true →
          sysmon_stack_get_size st th out_null = (st, false, none))
      ∧ ∀ h : Nat, th = some h → out_null = false →
          (hasValidRecord st.records h = false →
              sysmon_stack_get_size st th out_null = (st, false, some 0))
          ∧ ((sysmon_stack_get_size st th out_null).2.1 = true
              ↔ hasValidRecord st.records h = true)
          ∧ (hasValidRecord st.records h = true →
              ∃ r, st.records.find? (fun r => r.is_valid && r.handle == h) = some r
                ∧ sysmon_stack_get_size st th out_null = (st, true, some r.depth_bytes)) := by
  intro st th out_null
  refine ⟨?_, ?_, ?_⟩
  · cases th with
    | none => rfl
    | some h =>
      by_cases ho : out_null = true
      · simp [sysmon_stack_get_size, ho]
      · simp only [Bool.not_eq_true] at ho
        simp only [sysmon_stack_get_size, ho]
        cases hf : st.records.find? (fun r => r.is_valid && r.handle == h) <;> simp [hf]
  · rintro (rfl | rfl)
    · rfl
    · cases th with
      | none => rfl
      | some h => simp [sysmon_stack_get_size]
  · rintro h rfl rfl
    refine ⟨?_, ?_, ?_⟩
    · intro hval
      simp only [sysmon_stack_get_size, Bool.false_eq_true, if_false]
      rw [find?_eq_none_iff_hasValid_false.mpr hval]
    · cases hf : st.records.find? (fun r => r.is_valid && r.handle == h) with
      | none =>
        simp [sysmon_stack_get_size, hf, find?_eq_none_iff_hasValid_false.mp hf]
      | some r =>
        have hval : hasValidRecord st.records h = true := by
          have := List.find?_some hf
          rw [hasValidRecord, List.any_eq_true]
          exact ⟨r, List.mem_of_find?_eq_some hf, this⟩
        simp [sysmon_stack_get_size, hf, hval]
    · intro hval
      cases hf : st.records.find? (fun r => r.is_valid && r.handle == h) with
      | none =>
        rw [find?_eq_none_iff_hasValid_false.mp hf] at hval
        cases hval
      | some r =>
        exact ⟨r, rfl, by simp [sysmon_stack_get_size, hf]⟩

/-- Witness for C9 at a concrete registry: NULL handle, an unmatched
(invalid) record, and a matched valid record. -/
theorem stack_get_size_total_witness :
    sysmon_stack_get_size
        { records := [{ handle := 7, depth_bytes := 4096, is_valid := true },
                      { handle := 3, depth_bytes := 512, is_valid := false }],
          monitor_task_handle := some 1, task_capacity := 4 } none false
      = ({ records := [{ handle := 7, depth_bytes := 4096, is_valid := true },
                       { handle := 3, depth_bytes := 512, is_valid := false }],
           monitor_task_handle := some 1, task_capacity := 4 }, false, none)
    ∧ sysmon_stack_get_size
        { records := [{ handle := 7, depth_bytes := 4096, is_valid := true },
                      { handle := 3, depth_bytes := 512, is_valid := false }],
          monitor_task_handle := some 1, task_capacity := 4 } (some 3) false
      = ({ records := [{ handle := 7, depth_bytes := 4096, is_valid := true },
                       { handle := 3, depth_bytes := 512, is_valid := false }],
           monitor_task_handle := some 1, task_capacity := 4 }, false, some 0) := by
  refine ⟨(stack_get_size_total _ none false).2.1 (Or.inl rfl), ?_⟩
  exact ((stack_get_size_total _ (some 3) false).2.2 3 rfl rfl).1 (by decide)

/-- C10 counterexample: the claimed biconditional fails — for the input
"app_main" the function returns "app_main" (the input unchanged) even
though the input is not "main". -/
theorem display_name_iff_counterexample :
    ¬ (∀ t : Option String,
        (_get_task_display_name t = some "app_main" ↔ t ≠ none ∧ t = some "main")) := by
  intro hall
  have h1 : _get_task_display_name (some "app_main") = some "app_main" := by decide
  have h2 := (hall (some "app_main")).mp h1
  exact absurd h2.2 (by decide)

/-- C10 (amended): `_get_task_display_name` returns "app_main" for the
input "main"; every other input — including NULL and, in particular, a
name already equal to "app_main" — is returned unchanged, so all other
slot names appear verbatim. -/
theorem display_name_spec :
    _get_task_display_name (some "main") = some "app_main"
    ∧ _get_task_display_name none = none
    ∧ ∀ t : Option String, t ≠ some "main" → _get_task_display_name t = t := by
  refine ⟨by decide, rfl, ?_⟩
  intro t ht
  match t with
  | none => rfl
  | some s =>
    have hs : s ≠ "main" := fun hcon => ht (by rw [hcon])
    simp [_get_task_display_name, hs]

/-- Witness for C10's amended claim: a task name other than "main"
passes through verbatim. -/
theorem display_name_spec_witness :
    _get_task_display_name (some "IDLE") = some "IDLE" :=
  display_name_spec.2.2 (some "IDLE") (by decide)

/-! ## Ring-buffer series: circular write and chronological read -/

/-- `CONFIG_SYSMON_SAMPLE_COUNT` fallback default from `sysmon.h`.  The
series length is configurable, so the theorems below are parametric in
the length `n`. -/
def CONFIG_SYSMON_SAMPLE_COUNT : Nat := 60

/-- One circular series of a slot (or of the global state) together
with its write cursor: `data` models one of the fixed-length history
arrays of `TaskUsageSample` / `SysMonState`, `write_index` the shared
cursor (`write_index` resp. `series_write_index`). -/
structure RingSeries (α : Type) where
  data : List α
  write_index : Nat
  deriving Repr, DecidableEq

/-- Modelled from the spec: the sampler `sysmon.c` that performs the
series writes is not part of the source tree.  Spec sections 4.1 (step 4)
and 4.3: a write stores the value at the shared cursor and advances the
cursor by one, mod `n`. -/
def ringWrite (n : Nat) (r : RingSeries α) (v : α) : RingSeries α :=
  { data := r.data.set r.write_index v, write_index := (r.write_index + 1) % n }

/-- Modelled from the spec: a sequence of sampler ticks, each writing
one value into the series (spec section 4.1 step 4). -/
def ringWriteAll (n : Nat) (r : RingSeries α) (vs : List α) : RingSeries α :=
  vs.foldl (ringWrite n) r

/-- The sequence of read indices produced by the read loop of
`_create_history_json` (sysmon_json.c): start at the current index and
step `read_index = (read_index + 1) % n`, for `k` iterations. -/
def readIndices (n w : Nat) : Nat → List Nat
  | 0 => []
  | k + 1 => w :: readIndices n ((w + 1) % n) k

/-- The chronological history read of `_create_history_json`
(sysmon_json.c, per-slot loop): start from the current write index (the
oldest sample) and emit `n` values, wrapping mod `n`. -/
def historyRead (n : Nat) (r : RingSeries α) (d : α) : List α :=
  (readIndices n r.write_index n).map (fun i => r.data.getD i d)

/-- The latest-sample read index used by `_build_current_task_usage`,
`_create_tasks_json` and `_create_telemetry_json` (sysmon_json.c):
`(write_index - 1 + N) % N`, written over `Nat` as `(w + n - 1) % n`
(identical for `0 ≤ w`, which the `int` field always satisfies). -/
def latest_read_index (w n : Nat) : Nat := (w + n - 1) % n

/-- The latest-sample accessor of the read surface: the series value at
`latest_read_index`. -/
def latestRead (n : Nat) (r : RingSeries α) (d : α) : α :=
  r.data.getD (latest_read_index r.write_index n) d

theorem length_readIndices (n w k : Nat) : (readIndices n w k).length = k := by
  induction k generalizing w with
  | zero => rfl
  | succ k ih => simp [readIndices, ih]

theorem readIndices_eq {n : Nat} (hn : 0 < n) :
    ∀ (k w : Nat), w < n →
      readIndices n w k = (List.range k).map (fun j => (w + j) % n)
  | 0, _, _ => by simp [readIndices]
  | k + 1, w, hw => by
    rw [readIndices, readIndices_eq hn k ((w + 1) % n) (Nat.mod_lt _ hn),
      List.range_succ_eq_map]
    simp only [List.map_cons, List.map_map]
    refine List.cons_eq_cons.mpr ⟨?_, ?_⟩
    · rw [Nat.add_zero, Nat.mod_eq_of_lt hw]
    · apply List.map_congr_left
      intro j _
      simp only [Function.comp_apply, Nat.mod_add_mod, Nat.succ_eq_add_one]
      ring_nf

theorem historyRead_closed {n : Nat} {r : RingSeries α} (hn : 0 < n)
    (hw : r.write_index < n) (d : α) :
    historyRead n r d
      = (List.range n).map (fun j => r.data.getD ((r.write_index + j) % n) d) := by
  unfold historyRead
  rw [readIndices_eq hn n r.write_index hw, List.map_map]
  rfl

theorem length_historyRead {n : Nat} (r : RingSeries α) (d : α) :
    (historyRead n r d).length = n := by
  unfold historyRead
  rw [List.length_map, length_readIndices]

theorem historyRead_ringWrite {n : Nat} {r : RingSeries α} (hn : 0 < n)
    (hlen : r.data.length = n) (hw : r.write_index < n) (v d : α) :
    historyRead n (ringWrite n r v) d = (historyRead n r d).drop 1 ++ [v] := by
  have hw' : (ringWrite n r v).write_index < n := Nat.mod_lt _ hn
  rw [historyRead_closed hn hw' d, historyRead_closed hn hw d]
  apply List.ext_getElem
  · simp
    omega
  · intro i h1 h2
    have hi : i < n := by simpa using h1
    rw [List.getElem_map, List.getElem_range]
    simp only [ringWrite]
    by_cases hilt : i < n - 1
    · rw [List.getElem_append_left (by simpa using hilt)]
      rw [List.getElem_drop]
      rw [List.getElem_map, List.getElem_range]
      show (r.data.set r.write_index v).getD (((r.write_index + 1) % n + i) % n) d
          = r.data.getD ((r.write_index + (1 + i)) % n) d
      rw [Nat.mod_add_mod, Nat.add_assoc]
      have hne : (r.write_index + (1 + i)) % n ≠ r.write_index := by
        intro hcon
        rcases Nat.lt_or_ge (r.write_index + (1 + i)) n with hlt | hge
        · rw [Nat.mod_eq_of_lt hlt] at hcon
          omega
        · have hlt2 : (r.write_index + (1 + i)) - n < n := by omega
          rw [Nat.mod_eq_sub_mod hge, Nat.mod_eq_of_lt hlt2] at hcon
          omega
      rw [List.getD_eq_getElem?_getD, List.getD_eq_getElem?_getD,
        List.getElem?_set_ne (Ne.symm hne)]
    · have hieq : i = n - 1 := by omega
      rw [List.getElem_append_right (by simp; omega)]
      have hidx : ((r.write_index + 1) % n + i) % n = r.write_index := by
        rw [Nat.mod_add_mod, hieq]
        have harith : r.write_index + 1 + (n - 1) = r.write_index + n := by omega
        rw [harith, Nat.add_mod_right, Nat.mod_eq_of_lt hw]
      rw [hidx, List.getD_eq_getElem?_getD,
        List.getElem?_set_eq (by rw [hlen]; exact hw)]
      simp [hieq]

theorem ringWrite_invariant {n : Nat} {r : RingSeries α} (hn : 0 < n)
    (hlen : r.data.length = n) (v : α) :
    (ringWrite n r v).data.length = n ∧ (ringWrite n r v).write_index < n := by
  refine ⟨?_, Nat.mod_lt _ hn⟩
  simpa [ringWrite] using hlen

theorem historyRead_ringWriteAll {n : Nat} (hn : 0 < n) (d : α) :
    ∀ (vs : List α) (r : RingSeries α), r.data.length = n → r.write_index < n →
      historyRead n (ringWriteAll n r vs) d = ((historyRead n r d) ++ vs).drop vs.length
  | [], r, _, _ => by simp [ringWriteAll]
  | v :: vs, r, hlen, hw => by
    have hinv := ringWrite_invariant hn hlen v
    have htail := historyRead_ringWriteAll hn d vs (ringWrite n r v) hinv.1 hinv.2
    have hstep := historyRead_ringWrite hn hlen hw v d
    have hlh : 1 ≤ (historyRead n r d).length := by
      rw [length_historyRead]
      exact hn
    calc historyRead n (ringWriteAll n r (v :: vs)) d
        = historyRead n (ringWriteAll n (ringWrite n r v) vs) d := rfl
      _ = ((historyRead n (ringWrite n r v) d) ++ vs).drop vs.length := htail
      _ = (((historyRead n r d).drop 1 ++ [v]) ++ vs).drop vs.length := by rw [hstep]
      _ = ((historyRead n r d).drop 1 ++ (v :: vs)).drop vs.length := by
            rw [List.append_assoc]
            rfl
      _ = (((historyRead n r d) ++ (v :: vs)).drop 1).drop vs.length := by
            rw [List.drop_append_of_le_length hlh]
      _ = ((historyRead n r d) ++ (v :: vs)).drop (vs.length + 1) := by
            rw [List.drop_drop, Nat.add_comm]
      _ = ((historyRead n r d) ++ (v :: vs)).drop (v :: vs).length := by
            rw [List.length_cons]

theorem ringWriteAll_invariant {n : Nat} (hn : 0 < n) :
    ∀ (vs : List α) (r : RingSeries α), r.data.length = n → r.write_index < n →
      (ringWriteAll n r vs).data.length = n ∧ (ringWriteAll n r vs).write_index < n
  | [], _, hlen, hw => ⟨hlen, hw⟩
  | v :: vs, r, hlen, hw => by
    have hinv := ringWrite_invariant hn hlen v
    exact ringWriteAll_invariant hn vs (ringWrite n r v) hinv.1 hinv.2

/-- C1: for a series of configured length `n` with a well-formed cursor,
after `k ≥ n` further writes the chronological read of
`_create_history_json` — which starts at `write_index` and advances by
`(index+1) mod n` for `n` steps — returns exactly `n` values: the last
`n` written values, in write order (oldest first, newest last). -/
theorem history_chronological {α : Type} (n : Nat) (r : RingSeries α) (d : α) (vs : List α)
    (hn : 0 < n) (hlen : r.data.length = n) (hw : r.write_index < n)
    (hk : n ≤ vs.length) :
    historyRead n (ringWriteAll n r vs) d = vs.drop (vs.length - n)
    ∧ (historyRead n (ringWriteAll n r vs) d).length = n := by
  have hmain := historyRead_ringWriteAll hn d vs r hlen hw
  have hh : (historyRead n r d).length = n := length_historyRead r d
  have h1 : historyRead n (ringWriteAll n r vs) d = vs.drop (vs.length - n) := by
    rw [hmain]
    have hsplit : (historyRead n r d ++ vs).drop vs.length = vs.drop (vs.length - n) := by
      conv_lhs =>
        rw [show vs.length = (historyRead n r d).length + (vs.length - n) by
          rw [hh]; omega]
      exact List.drop_append _
    exact hsplit
  refine ⟨h1, ?_⟩
  rw [h1, List.length_drop]
  omega

/-- Witness for C1: a length-2 series, initially zeroed with cursor 0,
after the writes 1, 2, 3 reads back [2, 3] (the last two writes, oldest
first). -/
theorem history_chronological_witness :
    historyRead 2 (ringWriteAll 2 { data := [0, 0], write_index := 0 } [1, 2, 3]) 0 = [2, 3] := by
  have h := history_chronological 2 { data := [0, 0], write_index := 0 } 0 [1, 2, 3]
    (by decide) (by decide) (by decide) (by decide)
  simpa using h.1

theorem latestRead_ringWrite {n : Nat} {r : RingSeries α} (hn : 0 < n)
    (hlen : r.data.length = n) (hw : r.write_index < n) (v d : α) :
    latestRead n (ringWrite n r v) d = v := by
  have hidx : latest_read_index ((r.write_index + 1) % n) n = r.write_index := by
    unfold latest_read_index
    have h1 : (r.write_index + 1) % n + n - 1 = (r.write_index + 1) % n + (n - 1) := by
      omega
    rw [h1, Nat.mod_add_mod]
    have h2 : r.write_index + 1 + (n - 1) = r.write_index + n := by omega
    rw [h2, Nat.add_mod_right, Nat.mod_eq_of_lt hw]
  show (r.data.set r.write_index v).getD (latest_read_index ((r.write_index + 1) % n) n) d = v
  rw [hidx, List.getD_eq_getElem?_getD, List.getElem?_set_eq (by rw [hlen]; exact hw)]
  rfl

/-- C6: the latest-sample accessor reads the value stored at
`(write_index - 1 + n) mod n` (by definition, as in
`_build_current_task_usage` and `_create_telemetry_json`), and that
value is the most recently written sample: both immediately after one
write, and after any write sequence ending in `v`. -/
theorem latest_sample_is_most_recent {α : Type} (n : Nat) (r : RingSeries α) (v d : α)
    (hn : 0 < n) (hlen : r.data.length = n) (hw : r.write_index < n) :
    latestRead n (ringWrite n r v) d
        = (ringWrite n r v).data.getD
            (latest_read_index (ringWrite n r v).write_index n) d
    ∧ latestRead n (ringWrite n r v) d = v
    ∧ ∀ vs : List α, latestRead n (ringWriteAll n r (vs ++ [v])) d = v := by
  refine ⟨rfl, latestRead_ringWrite hn hlen hw v d, ?_⟩
  intro vs
  have hinv := ringWriteAll_invariant hn vs r hlen hw
  have hlast : ringWriteAll n r (vs ++ [v]) = ringWrite n (ringWriteAll n r vs) v := by
    unfold ringWriteAll
    rw [List.foldl_append]
    rfl
  rw [hlast]
  exact latestRead_ringWrite hn hinv.1 hinv.2 v d

/-- Witness for C6: in a length-3 series the value written last is the
one the latest-sample accessor returns. -/
theorem latest_sample_is_most_recent_witness :
    latestRead 3 (ringWrite 3 { data := [10, 20, 30], write_index := 1 } 99) 0 = 99
    ∧ latestRead 3 (ringWriteAll 3 { data := [10, 20, 30], write_index := 1 } [7, 8, 9, 42]) 0
        = 42 := by
  have h := latest_sample_is_most_recent 3 { data := [10, 20, 30], write_index := 1 } 99 0
    (by decide) (by decide) (by decide)
  have h2 := latest_sample_is_most_recent 3 { data := [10, 20, 30], write_index := 1 } 42 0
    (by decide) (by decide) (by decide)
  exact ⟨h.2.1, h2.2.2 [7, 8, 9]⟩

/-! ## Per-task slots, history JSON shape, usage-percent formulas -/

/-- `TaskUsageSample` from `sysmon.h`: one tracked-thread slot.  The
three history arrays are length-`CONFIG_SYSMON_SAMPLE_COUNT` circular
buffers sharing `write_index`; the remaining fields mirror the C struct
(float histories become `Rat`, FreeRTOS handle/priority types become
`Nat`). -/
structure TaskUsageSample where
  task_name : String
  usage_percent_history : List Rat
  stack_usage_bytes_history : List Nat
  stack_usage_percent_history : List Rat
  write_index : Nat
  is_active : Bool
  consecutive_zero_samples : Nat
  task_id : Nat
  current_priority : Nat
  base_priority : Nat
  total_run_time_ticks : Nat
  stack_high_water_mark : Nat
  stack_size_bytes : Nat
  core_id : Nat
  prev_run_time_ticks : Nat
  deriving Repr, DecidableEq

/-- The display key under which a slot appears in the JSON objects:
`_get_task_display_name` applied to its (non-NULL) name. -/
def taskDisplayKey (t : TaskUsageSample) : String :=
  match _get_task_display_name (some t.task_name) with
  | some s => s
  | none => t.task_name

/-- The per-slot entry built by `_create_history_json` (sysmon_json.c):
a "cpu" array (each sample rounded to one decimal place, as
`round(x*10)/10`) and a "stack" array that is present only when the
slot has a registered stack size (`stack_size_bytes > 0`). -/
structure TaskHistoryEntry where
  cpu : List Rat
  stack : Option (List Nat)
  deriving Repr, DecidableEq

/-- The body of the per-slot loop of `_create_history_json`
(sysmon_json.c): both arrays are read chronologically starting at the
slot's `write_index`; the stack array is built only for registered
slots. -/
def _create_history_entry (n : Nat) (t : TaskUsageSample) : TaskHistoryEntry :=
  { cpu := (historyRead n
        { data := t.usage_percent_history, write_index := t.write_index } 0).map
        (fun x => (round (x * 10) : Rat) / 10)
    stack :=
      if t.stack_size_bytes > 0 then
        some (historyRead n
          { data := t.stack_usage_bytes_history, write_index := t.write_index } 0)
      else none }

/-- `_create_history_json` (sysmon_json.c): one keyed entry per active
slot, in table order. -/
def _create_history_json (n : Nat) (tasks : List TaskUsageSample) :
    List (String × TaskHistoryEntry) :=
  (tasks.filter (fun t => t.is_active)).map
    (fun t => (taskDisplayKey t, _create_history_entry n t))

/-- Modelled from the spec: the sampler writing
`stack_usage_percent_history` lives in `sysmon.c`, which is absent from
the source tree.  Spec section 4.2: stack percent =
`(1 - free_bytes/stack_capacity_bytes) * 100` with `free_bytes =
stack_high_water_mark * wordSize`; an unregistered slot
(`stack_capacity_bytes = 0`) reports 0. -/
def stack_used_percent (stack_capacity_bytes stack_high_water_mark wordSize : Nat) : Rat :=
  if stack_capacity_bytes = 0 then 0
  else (1 - ((stack_high_water_mark * wordSize : Nat) : Rat) / (stack_capacity_bytes : Rat)) * 100

/-- Clamp a percentage into `[0, 100]` (spec section 4.2: "All
percentages are clamped to [0, 100]"). -/
def clampPercent (x : Rat) : Rat := max 0 (min 100 x)

/-- Modelled from the spec: the per-tick delta of the cumulative
run-tick counter (spec sections 4.1 step 1 and 7): `current - prev`,
clamped to 0 when the counter wrapped (`current < prev`). -/
def cpu_delta_ticks (prev_run_ticks current_run_ticks : Nat) : Nat :=
  if current_run_ticks < prev_run_ticks then 0
  else current_run_ticks - prev_run_ticks

/-- Modelled from the spec: CPU percent for a slot (spec section 4.2):
`(delta_run_ticks / delta_wall_ticks_since_last_sample) * 100`, using
the actual elapsed wall ticks, clamped to `[0, 100]`. -/
def cpu_percent (prev_run_ticks current_run_ticks delta_wall_ticks : Nat) : Rat :=
  clampPercent (((cpu_delta_ticks prev_run_ticks current_run_ticks : Nat) : Rat)
    / ((delta_wall_ticks : Nat) : Rat) * 100)

/-- C7: an unregistered slot (`stack_size_bytes = 0`) reports stack
usage percent 0 regardless of its high-water mark, and its
`_create_history_json` entry carries no stack array. -/
theorem stack_percent_gating :
    (∀ hwm wordSize : Nat, stack_used_percent 0 hwm wordSize = 0)
    ∧ ∀ (n : Nat) (t : TaskUsageSample), t.stack_size_bytes = 0 →
        (_create_history_entry n t).stack = none := by
  constructor
  · intro hwm wordSize
    simp [stack_used_percent]
  · intro n t ht
    simp [_create_history_entry, ht]

/-- Witness for C7: a concrete unregistered slot with a nonzero
high-water mark reports 0 and gets no stack array. -/
theorem stack_percent_gating_witness :
    stack_used_percent 0 500 4 = 0
    ∧ (_create_history_entry 2
        { task_name := "wifi", usage_percent_history := [0, 0],
          stack_usage_bytes_history := [0, 0], stack_usage_percent_history := [0, 0],
          write_index := 0, is_active := true, consecutive_zero_samples := 0,
          task_id := 3, current_priority := 5, base_priority := 5,
          total_run_time_ticks := 0, stack_high_water_mark := 500,
          stack_size_bytes := 0, core_id := 0, prev_run_time_ticks := 0 }).stack = none :=
  ⟨stack_percent_gating.1 500 4, stack_percent_gating.2 2 _ rfl⟩

/-- C4: for a matched slot with non-negative delta the CPU percentage
equals `(delta_run / delta_wall) * 100` clamped to `[0, 100]`; the spec
instance `prev = 100`, `current = 150`, `delta_wall = 500` yields 10;
and the result always lies in `[0, 100]`. -/
theorem cpu_percent_delta_correct :
    (∀ prev cur wall : Nat, prev ≤ cur →
        cpu_percent prev cur wall
          = clampPercent (((cur : Rat) - (prev : Rat)) / (wall : Rat) * 100))
    ∧ cpu_percent 100 150 500 = 10
    ∧ ∀ prev cur wall : Nat,
        0 ≤ cpu_percent prev cur wall ∧ cpu_percent prev cur wall ≤ 100 := by
  refine ⟨?_, ?_, ?_⟩
  · intro prev cur wall hle
    unfold cpu_percent cpu_delta_ticks
    rw [if_neg (by omega)]
    rw [Nat.cast_sub hle]
  · norm_num [cpu_percent, cpu_delta_ticks, clampPercent]
  · intro prev cur wall
    unfold cpu_percent clampPercent
    constructor
    · exact le_max_left 0 _
    · exact max_le (by norm_num) (min_le_left _ _)

/-- Witness for C4 at the spec's own numbers. -/
theorem cpu_percent_delta_correct_witness :
    cpu_percent 100 150 500
      = clampPercent (((150 : Rat) - (100 : Rat)) / ((500 : Rat)) * 100) :=
  cpu_percent_delta_correct.1 100 150 500 (by norm_num)

/-- C5: a wrapped counter (`current < prev`) yields a delta clamped to
0 and hence CPU percent 0 — neither negative nor huge — including the
spec instance `prev = 0xFFFFFFF0`, `current = 10`; the computation is a
total function, so sampling continues. -/
theorem cpu_percent_wraparound :
    (∀ prev cur wall : Nat, cur < prev → cpu_percent prev cur wall = 0)
    ∧ cpu_percent 0xFFFFFFF0 10 500 = 0 := by
  have hz : ∀ prev cur wall : Nat, cur < prev → cpu_percent prev cur wall = 0 := by
    intro prev cur wall hlt
    unfold cpu_percent cpu_delta_ticks clampPercent
    rw [if_pos hlt]
    norm_num
  exact ⟨hz, hz _ _ _ (by norm_num)⟩

/-- Witness for C5 at another wrapped pair. -/
theorem cpu_percent_wraparound_witness :
    cpu_percent 11 10 500 = 0 :=
  cpu_percent_wraparound.1 11 10 500 (by norm_num)

/-! ## Reconciliation / sampler step (modelled from the spec) -/

/-- Modelled from the spec: one tuple of the live thread snapshot the
scheduler returns per tick (spec sections 4.1 and 6); the fields mirror
the `TaskStatus_t` data listed in section 3. -/
structure LiveThread where
  task_id : Nat
  task_name : String
  current_priority : Nat
  base_priority : Nat
  core_id : Nat
  run_time_ticks : Nat
  stack_high_water_mark : Nat
  deriving Repr, DecidableEq

/-- Modelled from the spec (section 4.1 step 1): on a match, copy the
metadata from the snapshot, set `prev_run_time_ticks` to the current
counter, and reset `consecutive_zero_samples`.  The slot's identity and
activity are untouched. -/
def updateMatched (s : TaskUsageSample) (t : LiveThread) : TaskUsageSample :=
  { s with
    task_name := t.task_name
    current_priority := t.current_priority
    base_priority := t.base_priority
    core_id := t.core_id
    total_run_time_ticks := t.run_time_ticks
    prev_run_time_ticks := t.run_time_ticks
    stack_high_water_mark := t.stack_high_water_mark
    consecutive_zero_samples := 0 }

/-- Modelled from the spec (section 4.1 step 2): a freshly allocated
slot takes the thread's identity and metadata, becomes active, and
starts with `prev_run_time_ticks = current` so its first delta is 0.
The recycled slot's history storage is kept (section 3: storage is not
freed, only recycled). -/
def freshSlot (s : TaskUsageSample) (t : LiveThread) : TaskUsageSample :=
  { s with
    task_name := t.task_name
    task_id := t.task_id
    is_active := true
    consecutive_zero_samples := 0
    current_priority := t.current_priority
    base_priority := t.base_priority
    core_id := t.core_id
    total_run_time_ticks := t.run_time_ticks
    prev_run_time_ticks := t.run_time_ticks
    stack_high_water_mark := t.stack_high_water_mark }

/-- Modelled from the spec (section 4.1 step 1): look up the slot
matching the live thread by identity among active slots; update the
first match in place. -/
def updateFirstActiveMatch (t : LiveThread) :
    List TaskUsageSample → Option (List TaskUsageSample)
  | [] => none
  | s :: rest =>
    if s.is_active && s.task_id == t.task_id then
      some (updateMatched s t :: rest)
    else
      (updateFirstActiveMatch t rest).map (fun l => s :: l)

/-- Modelled from the spec (section 4.1 step 2): allocate the first
inactive slot for an unmatched thread; with no inactive slot the
registry is full and allocation is refused (section 7). -/
def allocateFirstInactive (t : LiveThread) :
    List TaskUsageSample → List TaskUsageSample
  | [] => []
  | s :: rest =>
    if !s.is_active then freshSlot s t :: rest
    else s :: allocateFirstInactive t rest

/-- Modelled from the spec (section 4.1 steps 1-2): process one live
thread — update its matched slot, or allocate a slot when unmatched. -/
def processThread (reg : List TaskUsageSample) (t : LiveThread) : List TaskUsageSample :=
  match updateFirstActiveMatch t reg with
  | some reg' => reg'
  | none => allocateFirstInactive t reg

/-- Modelled from the spec (section 4.1 step 3): an active slot absent
from this tick's live set has `consecutive_zero_samples` incremented;
once the counter exceeds the threshold the slot is marked inactive.
Matched (present) slots are untouched here. -/
def ageSlot (threshold : Nat) (live_ids : List Nat) (s : TaskUsageSample) : TaskUsageSample :=
  if s.is_active && !(live_ids.contains s.task_id) then
    if s.consecutive_zero_samples + 1 > threshold then
      { s with is_active := false,
               consecutive_zero_samples := s.consecutive_zero_samples + 1 }
    else
      { s with consecutive_zero_samples := s.consecutive_zero_samples + 1 }
  else s

/-- Modelled from the spec (section 4.1): one reconciliation tick —
match/allocate every snapshot thread, then age every slot against the
snapshot's identity set.  (Step 4, the per-slot series writes, is the
`ringWrite` model above; it touches no identity/activity field.) -/
def samplerTick (threshold : Nat) (reg : List TaskUsageSample)
    (snapshot : List LiveThread) : List TaskUsageSample :=
  (snapshot.foldl processThread reg).map
    (ageSlot threshold (snapshot.map (fun t => t.task_id)))

/-- Modelled from the spec: a run of consecutive sampler ticks. -/
def samplerRun (threshold : Nat) (reg : List TaskUsageSample)
    (snapshots : List (List LiveThread)) : List TaskUsageSample :=
  snapshots.foldl (samplerTick threshold) reg

/-- The identities of the active slots, in table order. -/
def activeIds (reg : List TaskUsageSample) : List Nat :=
  (reg.filter (fun s => s.is_active)).map (fun s => s.task_id)

theorem activeIds_cons (s : TaskUsageSample) (rest : List TaskUsageSample) :
    activeIds (s :: rest)
      = if s.is_active then s.task_id :: activeIds rest else activeIds rest := by
  by_cases hv : s.is_active = true
  · simp [activeIds, List.filter_cons, hv]
  · simp only [Bool.not_eq_true] at hv
    simp [activeIds, List.filter_cons, hv]

theorem updateMatched_is_active (s : TaskUsageSample) (t : LiveThread) :
    (updateMatched s t).is_active = s.is_active := rfl

theorem updateMatched_task_id (s : TaskUsageSample) (t : LiveThread) :
    (updateMatched s t).task_id = s.task_id := rfl

theorem ageSlot_task_id (threshold : Nat) (ids : List Nat) (s : TaskUsageSample) :
    (ageSlot threshold ids s).task_id = s.task_id := by
  unfold ageSlot
  split_ifs <;> rfl

theorem ageSlot_active_of_active (threshold : Nat) (ids : List Nat) (s : TaskUsageSample)
    (h : (ageSlot threshold ids s).is_active = true) : s.is_active = true := by
  by_cases h1 : (s.is_active && !(ids.contains s.task_id)) = true
  · exact (Bool.and_eq_true_iff.mp h1).1
  · unfold ageSlot at h
    rw [if_neg h1] at h
    exact h

theorem activeIds_updateFirstActiveMatch {t : LiveThread}
    {reg reg' : List TaskUsageSample}
    (hsome : updateFirstActiveMatch t reg = some reg') :
    activeIds reg' = activeIds reg := by
  induction reg generalizing reg' with
  | nil => simp [updateFirstActiveMatch] at hsome
  | cons s rest ih =>
    unfold updateFirstActiveMatch at hsome
    by_cases hc : (s.is_active && s.task_id == t.task_id) = true
    · simp [hc] at hsome
      subst hsome
      rw [activeIds_cons, activeIds_cons, updateMatched_is_active, updateMatched_task_id]
    · simp [hc] at hsome
      obtain ⟨l, hl, rfl⟩ := hsome
      rw [activeIds_cons, activeIds_cons, ih hl]

theorem mem_activeIds_of_updateFirstActiveMatch_some {t : LiveThread}
    {reg reg' : List TaskUsageSample}
    (hsome : updateFirstActiveMatch t reg = some reg') :
    t.task_id ∈ activeIds reg := by
  induction reg generalizing reg' with
  | nil => simp [updateFirstActiveMatch] at hsome
  | cons s rest ih =>
    unfold updateFirstActiveMatch at hsome
    by_cases hc : (s.is_active && s.task_id == t.task_id) = true
    · have hv : s.is_active = true := (Bool.and_eq_true_iff.mp hc).1
      have hid : s.task_id = t.task_id := by
        have := (Bool.and_eq_true_iff.mp hc).2
        exact beq_iff_eq.mp this
      rw [activeIds_cons, hv]
      simp [hid]
    · simp [hc] at hsome
      obtain ⟨l, hl, _⟩ := hsome
      rw [activeIds_cons]
      by_cases hv : s.is_active = true
      · simp [hv]
        exact Or.inr (ih hl)
      · simp only [Bool.not_eq_true] at hv
        simp [hv]
        exact ih hl

theorem activeIds_allocateFirstInactive_subset {t : LiveThread}
    {reg : List TaskUsageSample} :
    ∀ x ∈ activeIds (allocateFirstInactive t reg), x = t.task_id ∨ x ∈ activeIds reg := by
  induction reg with
  | nil => simp [allocateFirstInactive, activeIds]
  | cons s rest ih =>
    intro x hx
    unfold allocateFirstInactive at hx
    by_cases hv : s.is_active = true
    · rw [if_neg (by simp [hv])] at hx
      rw [activeIds_cons, hv] at hx
      simp only [if_true] at hx
      rw [activeIds_cons, hv]
      simp only [if_true]
      rcases List.mem_cons.mp hx with hx | hx
      · exact Or.inr (List.mem_cons.mpr (Or.inl hx))
      · rcases ih x hx with h1 | h1
        · exact Or.inl h1
        · exact Or.inr (List.mem_cons.mpr (Or.inr h1))
    · simp only [Bool.not_eq_true] at hv
      rw [if_pos (by simp [hv])] at hx
      rw [activeIds_cons] at hx
      simp only [show (freshSlot s t).is_active = true from rfl, if_true] at hx
      rw [activeIds_cons, hv]
      simp only [Bool.false_eq_true, if_false]
      rcases List.mem_cons.mp hx with hx | hx
      · exact Or.inl (by simpa using hx)
      · exact Or.inr hx

theorem activeIds_allocateFirstInactive_nodup {t : LiveThread}
    {reg : List TaskUsageSample}
    (hnd : (activeIds reg).Nodup) (habs : t.task_id ∉ activeIds reg) :
    (activeIds (allocateFirstInactive t reg)).Nodup := by
  induction reg with
  | nil => simp [allocateFirstInactive, activeIds]
  | cons s rest ih =>
    unfold allocateFirstInactive
    by_cases hv : s.is_active = true
    · rw [if_neg (by simp [hv])]
      rw [activeIds_cons, if_pos hv] at hnd habs
      rw [activeIds_cons, if_pos hv, List.nodup_cons]
      rw [List.nodup_cons] at hnd
      simp only [List.mem_cons, not_or] at habs
      refine ⟨?_, ih hnd.2 habs.2⟩
      intro hmem
      rcases activeIds_allocateFirstInactive_subset _ hmem with h1 | h1
      · exact habs.1 h1.symm
      · exact hnd.1 h1
    · rw [if_pos (by simpa using hv)]
      rw [activeIds_cons, if_neg hv] at hnd habs
      rw [activeIds_cons, if_pos (show (freshSlot s t).is_active = true from rfl),
        List.nodup_cons]
      exact ⟨habs, hnd⟩

theorem updateFirstActiveMatch_isSome_of_mem {t : LiveThread}
    {reg : List TaskUsageSample} (hmem : t.task_id ∈ activeIds reg) :
    ∃ reg', updateFirstActiveMatch t reg = some reg' := by
  induction reg with
  | nil => simp [activeIds] at hmem
  | cons s rest ih =>
    rw [activeIds_cons] at hmem
    unfold updateFirstActiveMatch
    by_cases hc : (s.is_active && s.task_id == t.task_id) = true
    · exact ⟨_, by rw [if_pos hc]⟩
    · rw [if_neg hc]
      by_cases hv : s.is_active = true
      · rw [if_pos hv, List.mem_cons] at hmem
        rcases hmem with hid | hmem
        · exact absurd (by simp [hv, hid.symm]) hc
        · obtain ⟨l, hl⟩ := ih hmem
          exact ⟨s :: l, by rw [hl]; rfl⟩
      · rw [if_neg hv] at hmem
        obtain ⟨l, hl⟩ := ih hmem
        exact ⟨s :: l, by rw [hl]; rfl⟩

theorem processThread_nodup (reg : List TaskUsageSample) (t : LiveThread)
    (hnd : (activeIds reg).Nodup) : (activeIds (processThread reg t)).Nodup := by
  unfold processThread
  cases hu : updateFirstActiveMatch t reg with
  | some reg' =>
    rw [activeIds_updateFirstActiveMatch hu]
    exact hnd
  | none =>
    apply activeIds_allocateFirstInactive_nodup hnd
    intro hmem
    obtain ⟨reg', hreg'⟩ := updateFirstActiveMatch_isSome_of_mem hmem
    rw [hu] at hreg'
    cases hreg'

theorem processAll_nodup (snapshot : List LiveThread) :
    ∀ reg : List TaskUsageSample, (activeIds reg).Nodup →
      (activeIds (snapshot.foldl processThread reg)).Nodup := by
  induction snapshot with
  | nil => exact fun reg hnd => hnd
  | cons t rest ih =>
    intro reg hnd
    exact ih (processThread reg t) (processThread_nodup reg t hnd)

theorem activeIds_map_ageSlot_subset (threshold : Nat) (ids : List Nat)
    (reg : List TaskUsageSample) :
    ∀ x ∈ activeIds (reg.map (ageSlot threshold ids)), x ∈ activeIds reg := by
  induction reg with
  | nil => simp [activeIds]
  | cons s rest ih =>
    intro x hx
    rw [List.map_cons, activeIds_cons] at hx
    rw [activeIds_cons]
    by_cases ha : (ageSlot threshold ids s).is_active = true
    · rw [if_pos ha, List.mem_cons] at hx
      have hsv : s.is_active = true := ageSlot_active_of_active threshold ids s ha
      rw [if_pos hsv, List.mem_cons]
      rcases hx with hx | hx
      · exact Or.inl (by rw [hx, ageSlot_task_id])
      · exact Or.inr (ih x hx)
    · rw [if_neg ha] at hx
      by_cases hsv : s.is_active = true
      · rw [if_pos hsv, List.mem_cons]
        exact Or.inr (ih x hx)
      · rw [if_neg hsv]
        exact ih x hx

theorem activeIds_map_ageSlot_nodup (threshold : Nat) (ids : List Nat)
    (reg : List TaskUsageSample) (hnd : (activeIds reg).Nodup) :
    (activeIds (reg.map (ageSlot threshold ids))).Nodup := by
  induction reg with
  | nil => simp [activeIds]
  | cons s rest ih =>
    rw [List.map_cons, activeIds_cons]
    by_cases ha : (ageSlot threshold ids s).is_active = true
    · rw [if_pos ha, List.nodup_cons]
      have hsv : s.is_active = true := ageSlot_active_of_active threshold ids s ha
      rw [activeIds_cons, if_pos hsv, List.nodup_cons] at hnd
      refine ⟨?_, ih hnd.2⟩
      rw [ageSlot_task_id]
      intro hmem
      exact hnd.1 (activeIds_map_ageSlot_subset threshold ids rest _ hmem)
    · rw [if_neg ha]
      apply ih
      rw [activeIds_cons] at hnd
      by_cases hsv : s.is_active = true
      · rw [if_pos hsv, List.nodup_cons] at hnd
        exact hnd.2
      · rw [if_neg hsv] at hnd
        exact hnd

theorem samplerTick_nodup (threshold : Nat) (reg : List TaskUsageSample)
    (snapshot : List LiveThread) (hnd : (activeIds reg).Nodup) :
    (activeIds (samplerTick threshold reg snapshot)).Nodup := by
  unfold samplerTick
  exact activeIds_map_ageSlot_nodup threshold _ _ (processAll_nodup snapshot reg hnd)

theorem samplerRun_nodup (threshold : Nat) (snapshots : List (List LiveThread)) :
    ∀ reg : List TaskUsageSample, (activeIds reg).Nodup →
      (activeIds (samplerRun threshold reg snapshots)).Nodup := by
  induction snapshots with
  | nil => exact fun reg hnd => hnd
  | cons snap rest ih =>
    intro reg hnd
    exact ih (samplerTick threshold reg snap) (samplerTick_nodup threshold reg snap hnd)

theorem allocateFirstInactive_allocates (t : LiveThread) (reg : List TaskUsageSample)
    (hfree : ∃ s ∈ reg, s.is_active = false) :
    ∃ s' ∈ allocateFirstInactive t reg, s'.is_active = true ∧ s'.task_id = t.task_id := by
  induction reg with
  | nil => simp at hfree
  | cons s rest ih =>
    by_cases hv : s.is_active = true
    · have hstep : allocateFirstInactive t (s :: rest) = s :: allocateFirstInactive t rest := by
        show (if (!s.is_active) = true then freshSlot s t :: rest
            else s :: allocateFirstInactive t rest) = s :: allocateFirstInactive t rest
        rw [if_neg (by simp [hv])]
      rw [hstep]
      obtain ⟨s0, hs0mem, hs0⟩ := hfree
      rcases List.mem_cons.mp hs0mem with rfl | hmem
      · exact absurd hv (by simp [hs0])
      · obtain ⟨s', hs'mem, hs'⟩ := ih ⟨s0, hmem, hs0⟩
        exact ⟨s', List.mem_cons.mpr (Or.inr hs'mem), hs'⟩
    · simp only [Bool.not_eq_true] at hv
      refine ⟨freshSlot s t, ?_, rfl, rfl⟩
      unfold allocateFirstInactive
      rw [if_pos (by simp [hv])]
      exact List.mem_cons.mpr (Or.inl rfl)

theorem processThread_allocates_inactive (t : LiveThread) (reg : List TaskUsageSample)
    (habs : t.task_id ∉ activeIds reg) (hfree : ∃ s ∈ reg, s.is_active = false) :
    ∃ s' ∈ processThread reg t, s'.is_active = true ∧ s'.task_id = t.task_id := by
  have hnone : updateFirstActiveMatch t reg = none := by
    cases hu : updateFirstActiveMatch t reg with
    | none => rfl
    | some reg' => exact absurd (mem_activeIds_of_updateFirstActiveMatch_some hu) habs
  unfold processThread
  rw [hnone]
  exact allocateFirstInactive_allocates t reg hfree

theorem updateFirstActiveMatch_getElem {t : LiveThread} {reg reg' : List TaskUsageSample}
    (hsome : updateFirstActiveMatch t reg = some reg') (i : Nat) :
    reg'[i]? = reg[i]?
    ∨ ∃ s, reg[i]? = some s ∧ s.is_active = true ∧ s.task_id = t.task_id
        ∧ reg'[i]? = some (updateMatched s t) := by
  induction reg generalizing reg' i with
  | nil => simp [updateFirstActiveMatch] at hsome
  | cons s rest ih =>
    unfold updateFirstActiveMatch at hsome
    by_cases hc : (s.is_active && s.task_id == t.task_id) = true
    · rw [if_pos hc] at hsome
      obtain rfl := Option.some.inj hsome
      cases i with
      | zero =>
        right
        exact ⟨s, List.getElem?_cons_zero, (Bool.and_eq_true_iff.mp hc).1,
          beq_iff_eq.mp (Bool.and_eq_true_iff.mp hc).2, List.getElem?_cons_zero⟩
      | succ j =>
        left
        rfl
    · rw [if_neg hc] at hsome
      cases hu : updateFirstActiveMatch t rest with
      | none =>
        rw [hu] at hsome
        cases hsome
      | some l =>
        rw [hu] at hsome
        simp only [Option.map_some'] at hsome
        obtain rfl := Option.some.inj hsome
        cases i with
        | zero =>
          left
          rw [List.getElem?_cons_zero, List.getElem?_cons_zero]
        | succ j =>
          rcases ih hu j with h1 | ⟨s0, h2, h3, h4, h5⟩
          · left
            rw [List.getElem?_cons_succ, List.getElem?_cons_succ]
            exact h1
          · right
            exact ⟨s0, by rw [List.getElem?_cons_succ]; exact h2, h3, h4,
              by rw [List.getElem?_cons_succ]; exact h5⟩

theorem allocateFirstInactive_getElem_of_active {t : LiveThread}
    {reg : List TaskUsageSample} {i : Nat} {s : TaskUsageSample}
    (hget : reg[i]? = some s) (hact : s.is_active = true) :
    (allocateFirstInactive t reg)[i]? = some s := by
  induction reg generalizing i with
  | nil => simp at hget
  | cons s0 rest ih =>
    by_cases hv : s0.is_active = true
    · have hstep : allocateFirstInactive t (s0 :: rest) = s0 :: allocateFirstInactive t rest := by
        show (if (!s0.is_active) = true then freshSlot s0 t :: rest
            else s0 :: allocateFirstInactive t rest) = s0 :: allocateFirstInactive t rest
        rw [if_neg (by simp [hv])]
      rw [hstep]
      cases i with
      | zero =>
        rw [List.getElem?_cons_zero] at hget ⊢
        exact hget
      | succ j =>
        rw [List.getElem?_cons_succ] at hget ⊢
        exact ih hget
    · simp only [Bool.not_eq_true] at hv
      have hstep : allocateFirstInactive t (s0 :: rest) = freshSlot s0 t :: rest := by
        show (if (!s0.is_active) = true then freshSlot s0 t :: rest
            else s0 :: allocateFirstInactive t rest) = freshSlot s0 t :: rest
        rw [if_pos (by simp [hv])]
      rw [hstep]
      cases i with
      | zero =>
        rw [List.getElem?_cons_zero] at hget
        obtain rfl := Option.some.inj hget
        rw [hv] at hact
        cases hact
      | succ j =>
        rw [List.getElem?_cons_succ] at hget ⊢
        exact hget

theorem processThread_getElem_preserves {reg : List TaskUsageSample} {t : LiveThread}
    {i : Nat} {s : TaskUsageSample}
    (hget : reg[i]? = some s) (hact : s.is_active = true) :
    ∃ s', (processThread reg t)[i]? = some s' ∧ s'.is_active = true
      ∧ s'.task_id = s.task_id := by
  unfold processThread
  cases hu : updateFirstActiveMatch t reg with
  | some reg' =>
    rcases updateFirstActiveMatch_getElem hu i with h1 | ⟨s0, h2, _, _, h5⟩
    · exact ⟨s, by rw [h1]; exact hget, hact, rfl⟩
    · obtain rfl : s = s0 := Option.some.inj (hget.symm.trans h2)
      exact ⟨updateMatched s t, h5, by rw [updateMatched_is_active]; exact hact,
        updateMatched_task_id s t⟩
  | none => exact ⟨s, allocateFirstInactive_getElem_of_active hget hact, hact, rfl⟩

theorem processThread_getElem_of_absent {reg : List TaskUsageSample} {t : LiveThread}
    {i : Nat} {s : TaskUsageSample}
    (hget : reg[i]? = some s) (hact : s.is_active = true)
    (hne : s.task_id ≠ t.task_id) :
    (processThread reg t)[i]? = some s := by
  unfold processThread
  cases hu : updateFirstActiveMatch t reg with
  | some reg' =>
    rcases updateFirstActiveMatch_getElem hu i with h1 | ⟨s0, h2, _, h4, _⟩
    · rw [h1]
      exact hget
    · obtain rfl : s = s0 := Option.some.inj (hget.symm.trans h2)
      exact absurd h4 hne
  | none => exact allocateFirstInactive_getElem_of_active hget hact

theorem processAll_getElem_preserves (snapshot : List LiveThread) :
    ∀ (reg : List TaskUsageSample) (i : Nat) (s : TaskUsageSample),
      reg[i]? = some s → s.is_active = true →
      ∃ s', (snapshot.foldl processThread reg)[i]? = some s'
        ∧ s'.is_active = true ∧ s'.task_id = s.task_id := by
  induction snapshot with
  | nil => exact fun reg i s hget hact => ⟨s, hget, hact, rfl⟩
  | cons t rest ih =>
    intro reg i s hget hact
    obtain ⟨s1, h1, h2, h3⟩ := processThread_getElem_preserves hget hact
    obtain ⟨s2, g1, g2, g3⟩ := ih (processThread reg t) i s1 h1 h2
    exact ⟨s2, g1, g2, by rw [g3, h3]⟩

theorem processAll_getElem_of_absent (snapshot : List LiveThread) :
    ∀ (reg : List TaskUsageSample) (i : Nat) (s : TaskUsageSample),
      reg[i]? = some s → s.is_active = true →
      s.task_id ∉ snapshot.map (fun t => t.task_id) →
      (snapshot.foldl processThread reg)[i]? = some s := by
  induction snapshot with
  | nil => exact fun reg i s hget _ _ => hget
  | cons t rest ih =>
    intro reg i s hget hact habs
    simp only [List.map_cons, List.mem_cons, not_or] at habs
    exact ih (processThread reg t) i s
      (processThread_getElem_of_absent hget hact habs.1) hact habs.2

theorem ageSlot_of_present {threshold : Nat} {ids : List Nat} {s : TaskUsageSample}
    (hact : s.is_active = true) (hmem : s.task_id ∈ ids) :
    ageSlot threshold ids s = s := by
  have hcont : ids.contains s.task_id = true := List.elem_iff.mpr hmem
  unfold ageSlot
  rw [if_neg (by rw [hact, hcont]; decide)]

theorem ageSlot_of_absent {threshold : Nat} {ids : List Nat} {s : TaskUsageSample}
    (hact : s.is_active = true) (habs : s.task_id ∉ ids) :
    ageSlot threshold ids s
      = if s.consecutive_zero_samples + 1 > threshold then
          { s with is_active := false,
                   consecutive_zero_samples := s.consecutive_zero_samples + 1 }
        else { s with consecutive_zero_samples := s.consecutive_zero_samples + 1 } := by
  have hcont : ids.contains s.task_id = false :=
    Bool.eq_false_iff.mpr (fun h => habs (List.elem_iff.mp h))
  unfold ageSlot
  rw [if_pos (by rw [hact, hcont]; decide)]

theorem samplerTick_getElem_present {threshold : Nat} {reg : List TaskUsageSample}
    {snap : List LiveThread} {i : Nat} {s : TaskUsageSample}
    (hget : reg[i]? = some s) (hact : s.is_active = true)
    (hmem : s.task_id ∈ snap.map (fun t => t.task_id)) :
    ∃ s', (samplerTick threshold reg snap)[i]? = some s'
      ∧ s'.is_active = true ∧ s'.task_id = s.task_id := by
  obtain ⟨s1, h1, h2, h3⟩ := processAll_getElem_preserves snap reg i s hget hact
  refine ⟨s1, ?_, h2, h3⟩
  unfold samplerTick
  rw [List.getElem?_map, h1, Option.map_some', ageSlot_of_present h2 (by rw [h3]; exact hmem)]

theorem samplerTick_getElem_absent {threshold : Nat} {reg : List TaskUsageSample}
    {snap : List LiveThread} {i : Nat} {s : TaskUsageSample}
    (hget : reg[i]? = some s) (hact : s.is_active = true)
    (habs : s.task_id ∉ snap.map (fun t => t.task_id)) :
    (samplerTick threshold reg snap)[i]?
      = some (if s.consecutive_zero_samples + 1 > threshold then
          { s with is_active := false,
                   consecutive_zero_samples := s.consecutive_zero_samples + 1 }
        else { s with consecutive_zero_samples := s.consecutive_zero_samples + 1 }) := by
  have h1 := processAll_getElem_of_absent snap reg i s hget hact habs
  unfold samplerTick
  rw [List.getElem?_map, h1, Option.map_some', ageSlot_of_absent hact habs]

theorem samplerRun_present (threshold d : Nat) :
    ∀ (snaps : List (List LiveThread)) (reg : List TaskUsageSample)
      (i : Nat) (s : TaskUsageSample),
      reg[i]? = some s → s.is_active = true → s.task_id = d →
      (∀ snap ∈ snaps, d ∈ snap.map (fun t => t.task_id)) →
      ∃ s', (samplerRun threshold reg snaps)[i]? = some s'
        ∧ s'.is_active = true ∧ s'.task_id = d := by
  intro snaps
  induction snaps with
  | nil => exact fun reg i s hget hact hid _ => ⟨s, hget, hact, hid⟩
  | cons snap rest ih =>
    intro reg i s hget hact hid hall
    obtain ⟨s1, h1, h2, h3⟩ := @samplerTick_getElem_present threshold reg snap i s hget hact
      (by rw [hid]; exact hall snap (List.mem_cons_self _ _))
    exact ih (samplerTick threshold reg snap) i s1 h1 h2 (by rw [h3, hid])
      (fun sn hsn => hall sn (List.mem_cons.mpr (Or.inr hsn)))

theorem samplerRun_absent_evicts (threshold : Nat) :
    ∀ (snaps : List (List LiveThread)) (reg : List TaskUsageSample)
      (i : Nat) (s : TaskUsageSample),
      reg[i]? = some s → s.is_active = true →
      s.consecutive_zero_samples ≤ threshold →
      (∀ snap ∈ snaps, s.task_id ∉ snap.map (fun t => t.task_id)) →
      s.consecutive_zero_samples + snaps.length = threshold + 1 →
      ∃ s', (samplerRun threshold reg snaps)[i]? = some s' ∧ s'.is_active = false := by
  intro snaps
  induction snaps with
  | nil =>
    intro reg i s _ _ hle _ hcnt
    simp only [List.length_nil, Nat.add_zero] at hcnt
    omega
  | cons snap rest ih =>
    intro reg i s hget hact hle hall hcnt
    have habs := hall snap (List.mem_cons_self _ _)
    have htick := @samplerTick_getElem_absent threshold reg snap i s hget hact habs
    simp only [List.length_cons] at hcnt
    by_cases hgt : s.consecutive_zero_samples + 1 > threshold
    · have hrest : rest = [] := by
        have hlen0 : rest.length = 0 := by omega
        exact List.length_eq_zero.mp hlen0
      subst hrest
      rw [if_pos hgt] at htick
      exact ⟨_, htick, rfl⟩
    · rw [if_neg hgt] at htick
      exact ih (samplerTick threshold reg snap) i
        { s with consecutive_zero_samples := s.consecutive_zero_samples + 1 }
        htick hact
        (by show s.consecutive_zero_samples + 1 ≤ threshold; omega)
        (fun sn hsn => hall sn (List.mem_cons.mpr (Or.inr hsn)))
        (by show s.consecutive_zero_samples + 1 + rest.length = threshold + 1; omega)

/-! ## Claim theorems: reconciliation invariants -/

/-- C2: active slots never share a thread identity: the list of active
slot identities stays duplicate-free across any run of sampler ticks;
and an inactive slot is eligible for reuse — a thread not matching any
active slot is allocated an active slot with its identity whenever some
inactive slot exists. -/
theorem slot_identity_invariant :
    (∀ (threshold : Nat) (reg : List TaskUsageSample)
        (snapshots : List (List LiveThread)),
        (activeIds reg).Nodup →
        (activeIds (samplerRun threshold reg snapshots)).Nodup)
    ∧ ∀ (t : LiveThread) (reg : List TaskUsageSample),
        t.task_id ∉ activeIds reg → (∃ s ∈ reg, s.is_active = false) →
        ∃ s' ∈ processThread reg t, s'.is_active = true ∧ s'.task_id = t.task_id :=
  ⟨fun threshold reg snapshots hnd => samplerRun_nodup threshold snapshots reg hnd,
   fun t reg habs hfree => processThread_allocates_inactive t reg habs hfree⟩

/-- Witness for C2: a registry with one active and one inactive slot;
after a tick with a snapshot holding an old and a new thread all active
identities are still distinct, and the new thread reuses the inactive
slot. -/
theorem slot_identity_invariant_witness :
    (activeIds (samplerRun 1
        [⟨"tA", [0], [0], [0], 0, true, 0, 1, 1, 1, 0, 0, 0, 0, 0⟩,
         ⟨"old", [0], [0], [0], 0, false, 3, 9, 1, 1, 0, 0, 0, 0, 0⟩]
        [[⟨1, "tA", 1, 1, 0, 5, 100⟩, ⟨2, "tC", 1, 1, 0, 7, 100⟩]])).Nodup
    ∧ ((processThread
        [⟨"tA", [0], [0], [0], 0, true, 0, 1, 1, 1, 0, 0, 0, 0, 0⟩,
         ⟨"old", [0], [0], [0], 0, false, 3, 9, 1, 1, 0, 0, 0, 0, 0⟩]
        ⟨2, "tC", 1, 1, 0, 7, 100⟩).any
          (fun s => s.is_active && s.task_id == 2)) = true := by
  constructor
  · exact slot_identity_invariant.1 1 _ _ (by decide)
  · obtain ⟨s', hmem, hact, hid⟩ := slot_identity_invariant.2 ⟨2, "tC", 1, 1, 0, 7, 100⟩
      [⟨"tA", [0], [0], [0], 0, true, 0, 1, 1, 1, 0, 0, 0, 0, 0⟩,
       ⟨"old", [0], [0], [0], 0, false, 3, 9, 1, 1, 0, 0, 0, 0, 0⟩]
      (by decide) (by decide)
    exact List.any_eq_true.mpr ⟨s', hmem, by simp [hact, hid]⟩

/-- C3: while a slot's identity appears in every tick's live snapshot
the slot stays active (the matched path never consults the reported CPU
value, so sustained zero usage cannot evict it); a slot whose identity
is absent for threshold+1 consecutive ticks transitions to
`is_active = false`; and the freed identity is reusable — an unmatched
new thread is allocated any existing inactive slot. -/
theorem slot_eviction_property :
    (∀ (threshold d : Nat) (snaps : List (List LiveThread))
        (reg : List TaskUsageSample) (i : Nat) (s : TaskUsageSample),
        reg[i]? = some s → s.is_active = true → s.task_id = d →
        (∀ snap ∈ snaps, d ∈ snap.map (fun t => t.task_id)) →
        ∃ s', (samplerRun threshold reg snaps)[i]? = some s'
          ∧ s'.is_active = true ∧ s'.task_id = d)
    ∧ (∀ (threshold : Nat) (snaps : List (List LiveThread))
        (reg : List TaskUsageSample) (i : Nat) (s : TaskUsageSample),
        reg[i]? = some s → s.is_active = true →
        s.consecutive_zero_samples ≤ threshold →
        (∀ snap ∈ snaps, s.task_id ∉ snap.map (fun t => t.task_id)) →
        s.consecutive_zero_samples + snaps.length = threshold + 1 →
        ∃ s', (samplerRun threshold reg snaps)[i]? = some s' ∧ s'.is_active = false)
    ∧ ∀ (t : LiveThread) (reg : List TaskUsageSample),
        t.task_id ∉ activeIds reg → (∃ s ∈ reg, s.is_active = false) →
        ∃ s' ∈ processThread reg t, s'.is_active = true ∧ s'.task_id = t.task_id :=
  ⟨fun threshold d snaps reg i s hget hact hid hall =>
      samplerRun_present threshold d snaps reg i s hget hact hid hall,
   fun threshold snaps reg i s hget hact hle hall hcnt =>
      samplerRun_absent_evicts threshold snaps reg i s hget hact hle hall hcnt,
   fun t reg habs hfree => processThread_allocates_inactive t reg habs hfree⟩

/-- Witness for C3: with threshold 1, a slot whose identity stays in
the snapshot remains active even while its reported usage is zero; the
same slot, absent for 2 consecutive ticks, is inactive afterwards; and
a new thread then reuses an inactive slot. -/
theorem slot_eviction_property_witness :
    ((samplerRun 1 [⟨"tB", [0], [0], [0], 0, true, 0, 4, 1, 1, 0, 0, 0, 0, 0⟩]
        [[⟨4, "tB", 1, 1, 0, 0, 100⟩], [⟨4, "tB", 1, 1, 0, 0, 100⟩]])[0]?).map
      (fun s => (s.is_active, s.task_id)) = some (true, 4)
    ∧ ((samplerRun 1 [⟨"tB", [0], [0], [0], 0, true, 0, 4, 1, 1, 0, 0, 0, 0, 0⟩]
        [[], []])[0]?).map (fun s => s.is_active) = some false
    ∧ ((processThread [⟨"tB", [0], [0], [0], 0, false, 2, 4, 1, 1, 0, 0, 0, 0, 0⟩]
        ⟨6, "tD", 1, 1, 0, 9, 100⟩).any
          (fun s => s.is_active && s.task_id == 6)) = true := by
  refine ⟨?_, ?_, ?_⟩
  · obtain ⟨s', h1, h2, h3⟩ := slot_eviction_property.1 1 4
      [[⟨4, "tB", 1, 1, 0, 0, 100⟩], [⟨4, "tB", 1, 1, 0, 0, 100⟩]]
      [⟨"tB", [0], [0], [0], 0, true, 0, 4, 1, 1, 0, 0, 0, 0, 0⟩] 0
      ⟨"tB", [0], [0], [0], 0, true, 0, 4, 1, 1, 0, 0, 0, 0, 0⟩
      (by decide) (by decide) (by decide) (by decide)
    rw [h1, Option.map_some']
    simp [h2, h3]
  · obtain ⟨s', h1, h2⟩ := slot_eviction_property.2.1 1 [[], []]
      [⟨"tB", [0], [0], [0], 0, true, 0, 4, 1, 1, 0, 0, 0, 0, 0⟩] 0
      ⟨"tB", [0], [0], [0], 0, true, 0, 4, 1, 1, 0, 0, 0, 0, 0⟩
      (by decide) (by decide) (by decide) (by decide) (by decide)
    rw [h1, Option.map_some']
    simp [h2]
  · obtain ⟨s', hmem, hact, hid⟩ := slot_eviction_property.2.2 ⟨6, "tD", 1, 1, 0, 9, 100⟩
      [⟨"tB", [0], [0], [0], 0, false, 2, 4, 1, 1, 0, 0, 0, 0, 0⟩]
      (by decide) (by decide)
    exact List.any_eq_true.mpr ⟨s', hmem, by simp [hact, hid]⟩
